import Mathlib

/-!
Verification development for the dlibin-nextjs static build pipeline and the
CodeBlock UI component.  The pipeline (metadata extraction, image processing,
page compilation, orchestration) lives in build scripts that are not part of
the checked sources, so those parts are modelled from the specification; the
CodeBlock component is embedded directly from `src/components/code-block.tsx`.
-/

namespace DlibinBuild

/-- Numeric value of a decimal digit character, `none` for non-digits. -/
def digitVal (c : Char) : Option Nat :=
  if '0' ≤ c ∧ c ≤ '9' then some (c.toNat - '0'.toNat) else none

/-- Accumulating decimal parse of a character list; fails on any non-digit. -/
def parseDigitsAux : List Char → Nat → Option Nat
  | [], acc => some acc
  | c :: cs, acc =>
    match digitVal c with
    | none => none
    | some d => parseDigitsAux cs (acc * 10 + d)

/-- Parse a non-empty all-digit character list as a decimal number. -/
def parseDigits : List Char → Option Nat
  | [] => none
  | c :: cs => parseDigitsAux (c :: cs) 0

/-- Split a character list into groups separated by the dash character. -/
def splitOnDash : List Char → List (List Char)
  | [] => [[]]
  | c :: cs =>
    let rest := splitOnDash cs
    if c = '-' then [] :: rest
    else
      match rest with
      | [] => [[c]]
      | g :: gs => (c :: g) :: gs

/-- Modelled from the spec: ISO `YYYY-MM-DD` date parsing used by the Metadata
Extractor (the build scripts holding the real parser are not in the checked
sources).  Returns the (year, month, day) triple, or `none` when the string is
not of that shape. -/
def parseDate (s : String) : Option (Nat × Nat × Nat) :=
  match splitOnDash s.data with
  | [ys, ms, ds] =>
    match parseDigits ys, parseDigits ms, parseDigits ds with
    | some y, some m, some d =>
      if 1 ≤ m ∧ m ≤ 12 ∧ 1 ≤ d ∧ d ≤ 31 then some (y, m, d) else none
    | _, _, _ => none
  | _ => none

/-- One element of a post body: prose, an embedded-component reference, a
fenced code block, or an image reference. -/
inductive BodyItem where
  | para (content : String)
  | componentRef (name : String)
  | codeBlock (language heading code : String)
  | imageRef (path : String)
deriving DecidableEq, Repr

/-- The prose contribution of a body item (markup constructs contribute none). -/
def BodyItem.plainText : BodyItem → String
  | .para t => t
  | .componentRef _ => ""
  | .codeBlock _ _ _ => ""
  | .imageRef _ => ""

/-- Concatenated prose of a whole body, space separated. -/
def bodyText : List BodyItem → String
  | [] => ""
  | it :: its => it.plainText ++ " " ++ bodyText its

/-- Count maximal runs of non-separator characters; the flag records whether a
word is currently open. -/
def countWordsAux : List Char → Bool → Nat
  | [], _ => 0
  | c :: cs, inWord =>
    if c = ' ' ∨ c = '\n' then countWordsAux cs false
    else (if inWord then 0 else 1) + countWordsAux cs true

/-- Number of whitespace-separated words in a string. -/
def wordCount (s : String) : Nat := countWordsAux s.data false

/-- Excerpt length used by the Metadata Extractor (first N characters). -/
def excerptLength : Nat := 150

/-- Assumed reading speed in words per minute. -/
def readingSpeed : Nat := 200

/-- Modelled from the spec: excerpt = first N characters of the body prose
(the real computation lives in the absent build scripts). -/
def excerptOf (body : List BodyItem) : String :=
  String.mk ((bodyText body).data.take excerptLength )

/-- Modelled from the spec: reading time = word count / assumed reading speed,
rounded up, and never below one minute. -/
def readingTimeOf (body : List BodyItem) : Nat :=
  max 1 ((wordCount (bodyText body) + readingSpeed - 1) / readingSpeed)

/-- Structured header block of a content file. -/
structure Frontmatter where
  title : Option String
  tags : List String
  date : Option String
  description : Option String
deriving DecidableEq, Repr

/-- One raw content file: filename, parsed header, body. -/
structure ContentFile where
  filename : String
  fm : Frontmatter
  body : List BodyItem
deriving DecidableEq, Repr

/-- Characters of a filename before its first dot. -/
def stemChars : List Char → List Char
  | [] => []
  | c :: cs => if c = '.' then [] else c :: stemChars cs

/-- Filename stem (the part before the extension). -/
def stemOf (s : String) : String := String.mk (stemChars s.data)

/-- Post metadata record produced by the Metadata Extractor, carrying the
untouched body for compilation. -/
structure Post where
  slug : String
  title : String
  date : String
  description : String
  tags : List String
  body : List BodyItem
  excerpt : String
  readingTime : Nat
deriving DecidableEq, Repr

/-- Post summary as stored in the aggregate metadata artifact. -/
structure PostSummary where
  slug : String
  title : String
  date : String
  description : String
  tags : List String
  excerpt : String
  readingTime : Nat
deriving DecidableEq, Repr

/-- Forget the body of a post, keeping the indexable summary. -/
def summaryOf (p : Post) : PostSummary :=
  { slug := p.slug
    title := p.title
    date := p.date
    description := p.description
    tags := p.tags
    excerpt := p.excerpt
    readingTime := p.readingTime }

/-- Fatal build error taxonomy of the spec. -/
inductive BuildError where
  | contentFormat (message : String)
  | unknownComponent (message : String)
  | ioError (message : String)
deriving DecidableEq, Repr

/-- Recoverable warnings accumulated during a run. -/
inductive Warning where
  | assetProcessing (path : String)
  | brokenReference (path : String)
deriving DecidableEq, Repr

/-- Modelled from the spec: slug derived from filename/title — the filename
stem when non-empty, otherwise the title. -/
def slugOf (f : ContentFile) : String :=
  let s := stemOf f.filename
  if s = "" then f.fm.title.getD "" else s

/-- The post record assembled from a content file once validation passed. -/
def postOf (f : ContentFile) : Post :=
  { slug := slugOf f
    title := f.fm.title.getD ""
    date := f.fm.date.getD ""
    description := f.fm.description.getD ""
    tags := f.fm.tags
    body := f.body
    excerpt := excerptOf f.body
    readingTime := readingTimeOf f.body }

/-- Schema validation of a frontmatter block: title present and non-empty,
date present and parsable. -/
def hasRequiredFrontmatter (f : ContentFile) : Bool :=
  match f.fm.title with
  | none => false
  | some t =>
    if t = "" then false
    else
      match f.fm.date with
      | none => false
      | some d => (parseDate d).isSome

/-- Modelled from the spec: the Metadata Extractor (its script is not in the
checked sources).  Parses the header into typed fields, failing with a
`ContentFormatError` when required fields (title, date) are absent or the date
is unparsable; otherwise yields the Post record with the untouched body. -/
def extractMetadata (f : ContentFile) : Except BuildError Post :=
  match f.fm.title with
  | none => .error (.contentFormat ("missing required field title: " ++ f.filename))
  | some t =>
    if t = "" then .error (.contentFormat ("missing required field title: " ++ f.filename))
    else
      match f.fm.date with
      | none => .error (.contentFormat ("missing required field date: " ++ f.filename))
      | some d =>
        match parseDate d with
        | none => .error (.contentFormat ("unparsable date: " ++ f.filename))
        | some _ => .ok (postOf f)

/-- Fail-fast extraction over all content files (step 2 of the orchestrator). -/
def extractAll : List ContentFile → Except BuildError (List Post)
  | [] => .ok []
  | f :: fs =>
    match extractMetadata f with
    | .error e => .error e
    | .ok p =>
      match extractAll fs with
      | .error e => .error e
      | .ok ps => .ok (p :: ps)

/-- A source image: path plus decodable content (`none` models a corrupt or
unreadable file). -/
structure ImageSource where
  path : String
  content : Option String
deriving DecidableEq, Repr

/-- Environment configuration of the build. -/
structure BuildConfig where
  baseUrl : String
  outDir : String
  widths : List Nat
  formats : List String
deriving DecidableEq, Repr

/-- Identity of one image variant: the deterministic output path derived from
(source identity, width, format) plus the content hash of the source it was
derived from (the content itself stands in for its hash). -/
structure VariantKey where
  srcPath : String
  width : Nat
  format : String
  srcHash : String
deriving DecidableEq, Repr

/-- A produced image variant in the output directory. -/
structure ImageEntry where
  key : VariantKey
  bytes : String
deriving DecidableEq, Repr

/-- Modelled from the spec: decode + resize preserving aspect ratio + encode
for one (width, format) target (the sharp-based script is not in the checked
sources); a pure function of the source content. -/
def encodeImage (data : String) (w : Nat) (fmt : String) : String :=
  fmt ++ "-" ++ Nat.repr w ++ ":" ++ data

/-- Freshly compute the variant for a key. -/
def computeVariant (k : VariantKey) : ImageEntry :=
  ⟨k, encodeImage k.srcHash k.width k.format⟩

/-- Find a cached entry for a key in an output directory listing. -/
def lookupVariant (k : VariantKey) : List ImageEntry → Option ImageEntry
  | [] => none
  | e :: es => if e.key = k then some e else lookupVariant k es

/-- Modelled from the spec: the staleness check — reuse the cached variant
when one exists for the same (path, width, format, source hash), otherwise
decode/resize/encode anew. -/
def emitVariant (k : VariantKey) (cache : List ImageEntry) : ImageEntry :=
  match lookupVariant k cache with
  | some e => e
  | none => computeVariant k

/-- Look up a source image by path. -/
def findSource (p : String) : List ImageSource → Option ImageSource
  | [] => none
  | s :: ss => if s.path = p then some s else findSource p ss

/-- Image paths referenced by a post body. -/
def imageRefs : List BodyItem → List String
  | [] => []
  | .imageRef p :: its => p :: imageRefs its
  | _ :: its => imageRefs its

/-- Image paths referenced by any post. -/
def referencedImages : List Post → List String
  | [] => []
  | p :: ps => imageRefs p.body ++ referencedImages ps

/-- Variant keys for one source across all configured formats at one width. -/
def keysForFormats (path data : String) (w : Nat) : List String → List VariantKey
  | [] => []
  | fmt :: fmts => ⟨path, w, fmt, data⟩ :: keysForFormats path data w fmts

/-- Variant keys for one source across all configured widths and formats. -/
def keysForWidths (path data : String) (fmts : List String) : List Nat → List VariantKey
  | [] => []
  | w :: ws => keysForFormats path data w fmts ++ keysForWidths path data fmts ws

/-- All variant keys demanded by a list of image references; a missing or
corrupt source contributes no keys. -/
def variantKeysOfRefs (sources : List ImageSource) (cfg : BuildConfig) :
    List String → List VariantKey
  | [] => []
  | path :: rest =>
    (match findSource path sources with
     | none => []
     | some src =>
       match src.content with
       | none => []
       | some data => keysForWidths path data cfg.formats cfg.widths)
      ++ variantKeysOfRefs sources cfg rest

/-- Modelled from the spec: per-image recoverable failures collected as
warnings — a corrupt source yields an asset-processing warning, an absent
source a broken-reference warning. -/
def imageWarningsOfRefs (sources : List ImageSource) : List String → List Warning
  | [] => []
  | path :: rest =>
    (match findSource path sources with
     | none => [.brokenReference path]
     | some src =>
       match src.content with
       | none => [.assetProcessing path]
       | some _ => [])
      ++ imageWarningsOfRefs sources rest

/-- Step 3 of the orchestrator: produce every demanded variant, reusing the
previous output directory as cache. -/
def processImages (keys : List VariantKey) (cache : List ImageEntry) : List ImageEntry :=
  keys.map fun k => emitVariant k cache

/-- A compiled page artifact: rendered markup plus its dependency list. -/
structure Page where
  slug : String
  path : String
  markup : String
  deps : List VariantKey
deriving DecidableEq, Repr

/-- Split a string into whitespace-separated words (the accumulator holds the
current word reversed). -/
def wordsAux : List Char → List Char → List String
  | [], cur => if cur.isEmpty then [] else [String.mk cur.reverse]
  | c :: cs, cur =>
    if c = ' ' ∨ c = '\n' then
      if cur.isEmpty then wordsAux cs []
      else String.mk cur.reverse :: wordsAux cs []
    else wordsAux cs (c :: cur)

/-- Words of a string. -/
def wordsOf (s : String) : List String := wordsAux s.data []

/-- Wrap each token of a code sample in a span tagged with its language. -/
def spanify (language : String) : List String → String
  | [] => ""
  | tok :: toks =>
    "<span class=\"tok-" ++ language ++ "\">" ++ tok ++ "</span>" ++ spanify language toks

/-- Modelled from the spec: syntax highlighting — tag tokens with a lexical
grammar for the declared language (a deterministic pure function). -/
def highlightCode (language code : String) : String :=
  spanify language (wordsOf code)

/-- Embedded-component references occurring in a body. -/
def componentRefsOf : List BodyItem → List String
  | [] => []
  | .componentRef n :: its => n :: componentRefsOf its
  | _ :: its => componentRefsOf its

/-- First name in the list that the registry does not know, if any. -/
def firstUnknown (registry : List String) : List String → Option String
  | [] => none
  | n :: ns => if n ∈ registry then firstUnknown registry ns else some n

/-- Render one body item to markup. -/
def renderItem : BodyItem → String
  | .para t => "<p>" ++ t ++ "</p>"
  | .componentRef n => "<" ++ n ++ " />"
  | .codeBlock lang heading code =>
    (if heading = "" then "" else "<div class=\"remark-code-title\">" ++ heading ++ "</div>")
      ++ "<pre><code class=\"hljs language-" ++ lang ++ "\">"
      ++ highlightCode lang code ++ "</code></pre>"
  | .imageRef p => "<img src=\"" ++ p ++ "\" />"

/-- Render a whole body to markup. -/
def renderBody : List BodyItem → String
  | [] => ""
  | it :: its => renderItem it ++ renderBody its

/-- The image variants a compiled page depends on: the available variants of
the sources its body references. -/
def pageDeps (avail : List VariantKey) (body : List BodyItem) : List VariantKey :=
  avail.filter fun k => k.srcPath ∈ imageRefs body

/-- The page artifact produced for a post once all references resolved. -/
def pageOf (avail : List VariantKey) (p : Post) : Page :=
  { slug := p.slug
    path := "/posts/" ++ p.slug ++ "/index.html"
    markup := renderBody p.body
    deps := pageDeps avail p.body }

/-- Modelled from the spec: the Page Compiler (its script is not in the
checked sources).  Resolves every embedded-component reference against the
registry, failing with an `UnknownComponentError` when a reference has no
match; otherwise produces the self-contained page artifact. -/
def compilePage (registry : List String) (avail : List VariantKey) (p : Post) :
    Except BuildError Page :=
  match firstUnknown registry (componentRefsOf p.body) with
  | some n => .error (.unknownComponent ("unknown component " ++ n ++ " in " ++ p.slug))
  | none => .ok (pageOf avail p)

/-- Fail-fast compilation over all posts (step 4 of the orchestrator). -/
def compileAll (registry : List String) (avail : List VariantKey) :
    List Post → Except BuildError (List Page)
  | [] => .ok []
  | p :: ps =>
    match compilePage registry avail p with
    | .error e => .error e
    | .ok pg =>
      match compileAll registry avail ps with
      | .error e => .error e
      | .ok pgs => .ok (pg :: pgs)

/-- Numeric sort key of an ISO date string (year, month, day weighted). -/
def dateKey (s : String) : Nat :=
  match parseDate s with
  | some (y, m, d) => y * 10000 + m * 100 + d
  | none => 0

/-- Descending publish-date order on post summaries. -/
def byDateDesc (a b : PostSummary) : Prop := dateKey b.date ≤ dateKey a.date

instance : DecidableRel byDateDesc := fun _ _ => Nat.decLe _ _

instance : IsTotal PostSummary byDateDesc :=
  ⟨fun a b => Nat.le_total (dateKey b.date) (dateKey a.date)⟩

instance : IsTrans PostSummary byDateDesc :=
  ⟨fun _ _ _ hab hbc => Nat.le_trans hbc hab⟩

/-- Step 5 of the orchestrator: the PostIndex — summaries of all processed
posts sorted by date descending. -/
def assembleIndex (posts : List Post) : List PostSummary :=
  List.insertionSort byDateDesc (posts.map summaryOf)

/-- JSON document tree. -/
inductive Json where
  | null
  | str (s : String)
  | num (n : Nat)
  | arr (elements : List Json)
  | obj (fields : List (String × Json))
deriving Repr

/-- Escape one character for a JSON string literal. -/
def escapeChar (c : Char) : List Char :=
  if c = '"' then ['\\', '"']
  else if c = '\\' then ['\\', '\\']
  else if c = '\n' then ['\\', 'n']
  else [c]

/-- Escape all characters of a string body. -/
def escapeChars : List Char → List Char
  | [] => []
  | c :: cs => escapeChar c ++ escapeChars cs

/-- Escaped JSON string body. -/
def escapeString (s : String) : String := String.mk (escapeChars s.data)

mutual

/-- Serialize a JSON tree to its byte representation. -/
def jsonRender : Json → String
  | .null => "null"
  | .str s => "\"" ++ escapeString s ++ "\""
  | .num n => Nat.repr n
  | .arr xs => "[" ++ jsonRenderSeq xs ++ "]"
  | .obj fs => "\x7b" ++ jsonRenderFields fs ++ "\x7d"

/-- Comma-separated rendering of array elements. -/
def jsonRenderSeq : List Json → String
  | [] => ""
  | [x] => jsonRender x
  | x :: y :: xs => jsonRender x ++ "," ++ jsonRenderSeq (y :: xs)

/-- Comma-separated rendering of object fields. -/
def jsonRenderFields : List (String × Json) → String
  | [] => ""
  | [(k, v)] => "\"" ++ k ++ "\":" ++ jsonRender v
  | (k, v) :: f :: fs => "\"" ++ k ++ "\":" ++ jsonRender v ++ "," ++ jsonRenderFields (f :: fs)

end

/-- Modelled from the spec: the aggregate metadata artifact entry for one
summary — an object with slug, title, date, description, tags, excerpt and
readingTime fields. -/
def summaryToJson (s : PostSummary) : Json :=
  .obj [("slug", .str s.slug), ("title", .str s.title), ("date", .str s.date),
        ("description", .str s.description), ("tags", .arr (s.tags.map Json.str)),
        ("excerpt", .str s.excerpt), ("readingTime", .num s.readingTime)]

/-- The aggregate metadata artifact: a JSON array of summary objects. -/
def serializeIndex (l : List PostSummary) : Json := .arr (l.map summaryToJson)

/-- Parse a JSON array of strings back into the tag list. -/
def parseStrList : List Json → Option (List String)
  | [] => some []
  | .str s :: rest =>
    match parseStrList rest with
    | some ss => some (s :: ss)
    | none => none
  | _ => none

/-- Parse one summary object of the aggregate metadata artifact. -/
def parseSummary : Json → Option PostSummary
  | .obj [("slug", .str sl), ("title", .str t), ("date", .str d),
          ("description", .str de), ("tags", .arr tj),
          ("excerpt", .str ex), ("readingTime", .num rt)] =>
    match parseStrList tj with
    | some tags => some ⟨sl, t, d, de, tags, ex, rt⟩
    | none => none
  | _ => none

/-- Parse a sequence of summary objects. -/
def parseSummaries : List Json → Option (List PostSummary)
  | [] => some []
  | j :: js =>
    match parseSummary j, parseSummaries js with
    | some s, some ss => some (s :: ss)
    | _, _ => none

/-- Parse the aggregate metadata artifact back into its ordered summaries. -/
def parseIndex : Json → Option (List PostSummary)
  | .arr js => parseSummaries js
  | _ => none

/-- Everything a full rebuild consumes: content files, source images,
component registry, configuration. -/
structure BuildInputs where
  files : List ContentFile
  images : List ImageSource
  registry : List String
  config : BuildConfig
deriving Repr

/-- The output directory owned by the orchestrator. -/
structure OutputDir where
  indexBytes : String
  index : List PostSummary
  pages : List Page
  images : List ImageEntry
deriving DecidableEq, Repr

/-- End-of-run build summary. -/
structure BuildSummary where
  pagesBuilt : Nat
  warningCount : Nat
deriving DecidableEq, Repr

/-- Result of a successful run: output directory, warnings, summary. -/
structure BuildResult where
  output : OutputDir
  warnings : List Warning
  summary : BuildSummary
deriving DecidableEq, Repr

/-- An empty previous output directory. -/
def emptyOutput : OutputDir :=
  { indexBytes := "", index := [], pages := [], images := [] }

/-- All image variant keys a run must produce. -/
def buildKeys (i : BuildInputs) (posts : List Post) : List VariantKey :=
  variantKeysOfRefs i.images i.config (referencedImages posts)

/-- The image entries a run writes, reusing the previous output as cache. -/
def buildImages (i : BuildInputs) (posts : List Post) (prev : OutputDir) : List ImageEntry :=
  processImages (buildKeys i posts) prev.images

/-- The variant keys available to the Page Compiler after image processing. -/
def buildAvail (i : BuildInputs) (posts : List Post) (prev : OutputDir) : List VariantKey :=
  (buildImages i posts prev).map ImageEntry.key

/-- The recoverable warnings a run accumulates. -/
def buildWarnings (i : BuildInputs) (posts : List Post) : List Warning :=
  imageWarningsOfRefs i.images (referencedImages posts)

/-- Modelled from the spec: the Site Assembler / Orchestrator (its
full-rebuild script is not in the checked sources).  Extract all metadata
(fail-fast), process referenced images collecting warnings, compile every
page (fail-fast), then assemble and serialize the PostIndex. -/
def runBuild (i : BuildInputs) (prev : OutputDir) : Except BuildError BuildResult :=
  match extractAll i.files with
  | .error e => .error e
  | .ok posts =>
    match compileAll i.registry (buildAvail i posts prev) posts with
    | .error e => .error e
    | .ok pages =>
      .ok { output := { indexBytes := jsonRender (serializeIndex (assembleIndex posts))
                        index := assembleIndex posts
                        pages := pages
                        images := buildImages i posts prev }
            warnings := buildWarnings i posts
            summary := { pagesBuilt := pages.length
                         warningCount := (buildWarnings i posts).length } }

end DlibinBuild

namespace CodeBlockUI

/-- A rendered DOM node: an element with attributes and children, a text
node, or raw HTML injected via dangerouslySetInnerHTML. -/
inductive Node where
  | elem (tag : String) (attrs : List (String × String)) (children : List Node)
  | text (s : String)
  | raw (html : String)
deriving Repr

/-- Props of the CodeBlock component (`src/components/code-block.tsx`). -/
structure CodeBlockProps where
  language : String
  syntaxTokenizedHTMLString : String
  title : Option String
deriving Repr

/-- JSX truthiness of the optional title: absent and the empty string are
falsy, so `title && <div>...</div>` renders nothing for them. -/
def titleTruthy : Option String → Bool
  | none => false
  | some s => !(s == "")

/-- Shared icon styling of the copy/check icons. -/
def iconClass : String :=
  "w-6 text-gray-600 text-opacity-70 transition-colors hover:text-gray-400"

/-- The copy button, showing the check icon while `copied` is set. -/
def copyButton (copied : Bool) : Node :=
  .elem "button"
    [("class", "absolute right-2 top-2"), ("aria-label", "copy code block"),
     ("title", "Copy code block")]
    [if copied then .elem "CheckIcon" [("class", iconClass)] []
     else .elem "CopyIcon" [("class", iconClass)] []]

/-- The pre/code block: `hljs language-<language>` class, inner HTML injected
verbatim from `syntaxTokenizedHTMLString`. -/
def codePre (props : CodeBlockProps) : Node :=
  .elem "pre" [("class", "remark-highlight")]
    [.elem "code" [("class", "hljs language-" ++ props.language)]
      [.raw props.syntaxTokenizedHTMLString]]

/-- The relative wrapper holding the copy button and the code block. -/
def contentDiv (props : CodeBlockProps) (copied : Bool) : Node :=
  .elem "div" [("class", "relative")] [copyButton copied, codePre props]

/-- The optional `remark-code-title` header, rendered only for a truthy
title. -/
def titleHeader (props : CodeBlockProps) : List Node :=
  match props.title with
  | some t =>
    if t == "" then []
    else [.elem "div" [("class", "remark-code-title")] [.text t]]
  | none => []

/-- The CodeBlock render function, embedded from the JSX return of
`src/components/code-block.tsx` (`copied` is the useState value). -/
def renderCodeBlock (props : CodeBlockProps) (copied : Bool) : Node :=
  .elem "div" [("class", "lg:-mx-16")] (titleHeader props ++ [contentDiv props copied])

/-- Whether an attribute list carries the given key/value pair. -/
def attrHas (key value : String) : List (String × String) → Bool
  | [] => false
  | (k, v) :: rest => if k = key ∧ v = value then true else attrHas key value rest

mutual

/-- Whether a node tree contains an element carrying the given class. -/
def hasClassNode (cls : String) : Node → Bool
  | .elem _ attrs children =>
    attrHas "class" cls attrs || hasClassNodes cls children
  | .text _ => false
  | .raw _ => false

/-- Whether any node of a list contains an element with the given class. -/
def hasClassNodes (cls : String) : List Node → Bool
  | [] => false
  | n :: ns => hasClassNode cls n || hasClassNodes cls ns

end

mutual

/-- Locate the first `code` element in a tree, returning its attributes and
children. -/
def findCode : Node → Option (List (String × String) × List Node)
  | .elem tag attrs children =>
    if tag = "code" then some (attrs, children) else findCodeList children
  | .text _ => none
  | .raw _ => none

/-- Locate the first `code` element across a list of nodes. -/
def findCodeList : List Node → Option (List (String × String) × List Node)
  | [] => none
  | n :: ns =>
    match findCode n with
    | some r => some r
    | none => findCodeList ns

end

end CodeBlockUI

namespace DlibinBuild

/-- A small well-formed content file with the given name, title and date. -/
def fileDated (name t d : String) : ContentFile :=
  { filename := name
    fm := { title := some t, tags := ["misc"], date := some d, description := some "demo" }
    body := [.para "hello world from the demo post"] }

/-- Three content files dated 2021-01-01, 2021-02-01 and 2020-12-01, in that
order (the worked example of the spec). -/
def exampleThree : BuildInputs :=
  { files := [fileDated "first.mdx" "First" "2021-01-01",
              fileDated "second.mdx" "Second" "2021-02-01",
              fileDated "third.mdx" "Third" "2020-12-01"]
    images := []
    registry := []
    config := { baseUrl := "https://dlibin.net", outDir := "out", widths := [], formats := [] } }

/-- A run exercising the image cache: one post referencing one healthy image
at two widths. -/
def exampleCacheRun : BuildInputs :=
  { files := [{ filename := "cached.mdx"
                fm := { title := some "Cached", tags := [], date := some "2021-03-04",
                        description := none }
                body := [.para "text body", .imageRef "pic.png"] }]
    images := [{ path := "pic.png", content := some "PIXELS" }]
    registry := []
    config := { baseUrl := "https://dlibin.net", outDir := "out",
                widths := [320, 640], formats := ["webp"] } }

/-- A content file whose frontmatter lacks the title field. -/
def brokenFile : ContentFile :=
  { filename := "broken.mdx"
    fm := { title := none, tags := [], date := some "2021-01-01", description := none }
    body := [.para "some body"] }

/-- Inputs containing the broken content file. -/
def exampleMissingTitle : BuildInputs :=
  { files := [brokenFile]
    images := []
    registry := []
    config := { baseUrl := "https://dlibin.net", outDir := "out", widths := [], formats := [] } }

/-- A valid content file whose body references the StockSim component. -/
def componentFile : ContentFile :=
  { filename := "widget.mdx"
    fm := { title := some "Widget", tags := [], date := some "2021-04-05", description := none }
    body := [.para "interactive demo", .componentRef "StockSim"] }

/-- Inputs whose single post references a component absent from the registry. -/
def exampleUnknownComponent : BuildInputs :=
  { files := [componentFile]
    images := []
    registry := ["QrShare"]
    config := { baseUrl := "https://dlibin.net", outDir := "out", widths := [], formats := [] } }

/-- A valid content file referencing a corrupt image. -/
def corruptImageFile : ContentFile :=
  { filename := "gallery.mdx"
    fm := { title := some "Gallery", tags := [], date := some "2021-06-07", description := none }
    body := [.para "pictures", .imageRef "bad.png"] }

/-- Inputs whose single healthy post references one corrupt image. -/
def exampleCorruptImage : BuildInputs :=
  { files := [corruptImageFile]
    images := [{ path := "bad.png", content := none }]
    registry := []
    config := { baseUrl := "https://dlibin.net", outDir := "out",
                widths := [320], formats := ["webp"] } }

/-- Inputs exercising every pipeline stage at once: component, image, prose. -/
def exampleFull : BuildInputs :=
  { files := [{ filename := "full.mdx"
                fm := { title := some "Full", tags := ["demo"], date := some "2021-07-08",
                        description := some "all stages" }
                body := [.para "intro words", .componentRef "StockSim", .imageRef "chart.png",
                         .codeBlock "javascript" "demo.js" "let x = 1"] },
              fileDated "plain.mdx" "Plain" "2021-07-09"]
    images := [{ path := "chart.png", content := some "DATA" }]
    registry := ["StockSim"]
    config := { baseUrl := "https://dlibin.net", outDir := "out",
                widths := [320], formats := ["webp", "png"] } }

/-- Fallback result used to totalize `resultOf` (never reached on the
examples it is applied to). -/
def fallbackResult : BuildResult :=
  { output := emptyOutput, warnings := [], summary := { pagesBuilt := 0, warningCount := 0 } }

/-- The successful result of a run, for concrete witness inputs. -/
def resultOf (i : BuildInputs) (prev : OutputDir) : BuildResult :=
  match runBuild i prev with
  | .ok r => r
  | .error _ => fallbackResult

end DlibinBuild

namespace DlibinBuild

/-- Inversion of a successful extraction: the frontmatter passed validation
and the post is the assembled record. -/
theorem extractMetadata_ok_inv (f : ContentFile) (p : Post)
    (h : extractMetadata f = .ok p) :
    ∃ t d x, f.fm.title = some t ∧ t ≠ "" ∧ f.fm.date = some d ∧
      parseDate d = some x ∧ p = postOf f := by
  unfold extractMetadata at h
  cases ht : f.fm.title with
  | none => simp [ht] at h
  | some t =>
    by_cases hte : t = ""
    · simp [ht, hte] at h
    · cases hd : f.fm.date with
      | none => simp [ht, hte, hd] at h
      | some d =>
        cases hx : parseDate d with
        | none => simp [ht, hte, hd, hx] at h
        | some x =>
          simp only [ht, hd, hx, if_neg hte] at h
          injection h with h2
          exact ⟨t, d, x, rfl, hte, rfl, hx, h2.symm⟩

/-- A frontmatter block passing validation extracts successfully. -/
theorem extractMetadata_of_required (f : ContentFile)
    (h : hasRequiredFrontmatter f = true) : extractMetadata f = .ok (postOf f) := by
  unfold hasRequiredFrontmatter at h
  cases ht : f.fm.title with
  | none => simp [ht] at h
  | some t =>
    by_cases hte : t = ""
    · simp [ht, hte] at h
    · cases hd : f.fm.date with
      | none => simp [ht, hte, hd] at h
      | some d =>
        simp only [ht, hd, if_neg hte] at h
        obtain ⟨x, hx⟩ := Option.isSome_iff_exists.mp h
        simp [extractMetadata, ht, hte, hd, hx]

/-- A frontmatter block failing validation extracts to a content-format
error. -/
theorem extractMetadata_err_of_not_required (f : ContentFile)
    (h : hasRequiredFrontmatter f = false) :
    ∃ m, extractMetadata f = .error (.contentFormat m) := by
  cases ht : f.fm.title with
  | none =>
    exact ⟨"missing required field title: " ++ f.filename, by simp [extractMetadata, ht]⟩
  | some t =>
    by_cases hte : t = ""
    · exact ⟨"missing required field title: " ++ f.filename,
        by simp [extractMetadata, ht, hte]⟩
    · cases hd : f.fm.date with
      | none =>
        exact ⟨"missing required field date: " ++ f.filename,
          by simp [extractMetadata, ht, hte, hd]⟩
      | some d =>
        cases hx : parseDate d with
        | none =>
          exact ⟨"unparsable date: " ++ f.filename,
            by simp [extractMetadata, ht, hte, hd, hx]⟩
        | some x =>
          unfold hasRequiredFrontmatter at h
          simp [ht, hte, hd, hx] at h

/-- Every error the Metadata Extractor produces is a content-format error. -/
theorem extractMetadata_error_inv (f : ContentFile) (e : BuildError)
    (h : extractMetadata f = .error e) : ∃ m, e = .contentFormat m := by
  unfold extractMetadata at h
  cases ht : f.fm.title with
  | none =>
    simp only [ht] at h
    injection h with h2
    exact ⟨_, h2.symm⟩
  | some t =>
    by_cases hte : t = ""
    · simp only [ht, if_pos hte] at h
      injection h with h2
      exact ⟨_, h2.symm⟩
    · cases hd : f.fm.date with
      | none =>
        simp only [ht, hd, if_neg hte] at h
        injection h with h2
        exact ⟨_, h2.symm⟩
      | some d =>
        cases hx : parseDate d with
        | none =>
          simp only [ht, hd, hx, if_neg hte] at h
          injection h with h2
          exact ⟨_, h2.symm⟩
        | some x => simp [ht, hte, hd, hx] at h

/-- When every file passes validation, extraction succeeds file by file. -/
theorem extractAll_ok_of (files : List ContentFile)
    (h : ∀ f ∈ files, hasRequiredFrontmatter f = true) :
    extractAll files = .ok (files.map postOf) := by
  induction files with
  | nil => rfl
  | cons f fs ih =>
    have h1 := extractMetadata_of_required f (h f (List.mem_cons_self f fs))
    have h2 := ih fun g hg => h g (List.mem_cons_of_mem f hg)
    simp [extractAll, h1, h2]

/-- When some file fails validation, the whole extraction pass fails with a
content-format error. -/
theorem extractAll_err_of (files : List ContentFile) (f : ContentFile)
    (hf : f ∈ files) (hbad : hasRequiredFrontmatter f = false) :
    ∃ m, extractAll files = .error (.contentFormat m) := by
  induction files with
  | nil => cases hf
  | cons g gs ih =>
    rcases List.mem_cons.mp hf with rfl | hmem
    · obtain ⟨m, hm⟩ := extractMetadata_err_of_not_required f hbad
      exact ⟨m, by simp [extractAll, hm]⟩
    · cases hg : extractMetadata g with
      | error e =>
        obtain ⟨m, hm⟩ := extractMetadata_error_inv g e hg
        exact ⟨m, by simp [extractAll, hg, hm]⟩
      | ok p =>
        obtain ⟨m, hm⟩ := ih hmem
        exact ⟨m, by simp [extractAll, hg, hm]⟩

end DlibinBuild

namespace DlibinBuild

/-- The registry check succeeds exactly when every reference is known. -/
theorem firstUnknown_eq_none_iff (registry ns : List String) :
    firstUnknown registry ns = none ↔ ∀ n ∈ ns, n ∈ registry := by
  induction ns with
  | nil => simp [firstUnknown]
  | cons n ns ih =>
    by_cases hn : n ∈ registry
    · simp [firstUnknown, hn, ih]
    · simp [firstUnknown, hn]

/-- A post all of whose component references are known compiles to its page. -/
theorem compilePage_ok_of (registry : List String) (avail : List VariantKey)
    (p : Post) (h : ∀ n ∈ componentRefsOf p.body, n ∈ registry) :
    compilePage registry avail p = .ok (pageOf avail p) := by
  simp [compilePage, (firstUnknown_eq_none_iff registry (componentRefsOf p.body)).mpr h]

/-- A post with an unresolvable component reference fails to compile with an
unknown-component error. -/
theorem compilePage_err_of (registry : List String) (avail : List VariantKey)
    (p : Post) (h : ∃ n ∈ componentRefsOf p.body, n ∉ registry) :
    ∃ m, compilePage registry avail p = .error (.unknownComponent m) := by
  cases hfu : firstUnknown registry (componentRefsOf p.body) with
  | none =>
    obtain ⟨n, hn, hreg⟩ := h
    exact absurd ((firstUnknown_eq_none_iff registry _).mp hfu n hn) hreg
  | some n =>
    exact ⟨"unknown component " ++ n ++ " in " ++ p.slug, by simp [compilePage, hfu]⟩

/-- Every error the Page Compiler produces is an unknown-component error. -/
theorem compilePage_error_inv (registry : List String) (avail : List VariantKey)
    (p : Post) (e : BuildError) (h : compilePage registry avail p = .error e) :
    ∃ m, e = .unknownComponent m := by
  unfold compilePage at h
  cases hfu : firstUnknown registry (componentRefsOf p.body) with
  | none => simp [hfu] at h
  | some n =>
    simp only [hfu] at h
    injection h with h2
    exact ⟨_, h2.symm⟩

/-- Inversion of a successful compilation: the page is the assembled
artifact. -/
theorem compilePage_ok_inv (registry : List String) (avail : List VariantKey)
    (p : Post) (pg : Page) (h : compilePage registry avail p = .ok pg) :
    pg = pageOf avail p := by
  unfold compilePage at h
  cases hfu : firstUnknown registry (componentRefsOf p.body) with
  | none =>
    simp only [hfu] at h
    injection h with h2
    exact h2.symm
  | some n => simp [hfu] at h

/-- When every reference of every post is known, compilation succeeds post by
post. -/
theorem compileAll_ok_of (registry : List String) (avail : List VariantKey)
    (posts : List Post)
    (h : ∀ p ∈ posts, ∀ n ∈ componentRefsOf p.body, n ∈ registry) :
    compileAll registry avail posts = .ok (posts.map (pageOf avail)) := by
  induction posts with
  | nil => rfl
  | cons p ps ih =>
    have h1 := compilePage_ok_of registry avail p (h p (List.mem_cons_self p ps))
    have h2 := ih fun q hq => h q (List.mem_cons_of_mem p hq)
    simp [compileAll, h1, h2]

/-- When some post holds an unknown reference, the whole compilation pass
fails with an unknown-component error. -/
theorem compileAll_err_of (registry : List String) (avail : List VariantKey)
    (posts : List Post) (p : Post) (hp : p ∈ posts)
    (h : ∃ n ∈ componentRefsOf p.body, n ∉ registry) :
    ∃ m, compileAll registry avail posts = .error (.unknownComponent m) := by
  induction posts with
  | nil => cases hp
  | cons q qs ih =>
    rcases List.mem_cons.mp hp with rfl | hmem
    · obtain ⟨m, hm⟩ := compilePage_err_of registry avail p h
      exact ⟨m, by simp [compileAll, hm]⟩
    · cases hq : compilePage registry avail q with
      | error e =>
        obtain ⟨m, hm⟩ := compilePage_error_inv registry avail q e hq
        exact ⟨m, by simp [compileAll, hq, hm]⟩
      | ok pg =>
        obtain ⟨m, hm⟩ := ih hmem
        exact ⟨m, by simp [compileAll, hq, hm]⟩

/-- Inversion of a successful compilation pass: the pages are exactly the
assembled artifacts, in post order. -/
theorem compileAll_ok_inv (registry : List String) (avail : List VariantKey)
    (posts : List Post) (pages : List Page)
    (h : compileAll registry avail posts = .ok pages) :
    pages = posts.map (pageOf avail) := by
  induction posts generalizing pages with
  | nil =>
    simp only [compileAll] at h
    injection h with h2
    simp [h2.symm]
  | cons p ps ih =>
    unfold compileAll at h
    cases hc : compilePage registry avail p with
    | error e => simp [hc] at h
    | ok pg =>
      simp only [hc] at h
      cases hcs : compileAll registry avail ps with
      | error e => simp [hcs] at h
      | ok pgs =>
        simp only [hcs] at h
        injection h with h2
        rw [← h2, compilePage_ok_inv registry avail p pg hc, ih pgs hcs]
        simp

end DlibinBuild

namespace DlibinBuild

/-- A cache hit returns an entry stored under the looked-up key. -/
theorem lookupVariant_some_key (k : VariantKey) (l : List ImageEntry)
    (e : ImageEntry) (h : lookupVariant k l = some e) : e.key = k := by
  induction l with
  | nil => simp [lookupVariant] at h
  | cons b bs ih =>
    by_cases hb : b.key = k
    · simp only [lookupVariant, if_pos hb] at h
      injection h with h2
      rw [← h2]; exact hb
    · simp only [lookupVariant, if_neg hb] at h
      exact ih h

/-- The cache lookup finds the entry when it is present and is the only entry
stored under its key. -/
theorem lookupVariant_eq_some (k : VariantKey) (l : List ImageEntry)
    (a : ImageEntry) (ha : a ∈ l) (hk : a.key = k)
    (huniq : ∀ b ∈ l, b.key = k → b = a) : lookupVariant k l = some a := by
  induction l with
  | nil => cases ha
  | cons e es ih =>
    by_cases he : e.key = k
    · have hea : e = a := huniq e (List.mem_cons_self e es) he
      simp only [lookupVariant]
      rw [if_pos he, hea]
    · rcases List.mem_cons.mp ha with rfl | hmem
      · exact absurd hk he
      · simp only [lookupVariant, if_neg he]
        exact ih hmem fun b hb hbk => huniq b (List.mem_cons_of_mem e hb) hbk

/-- The emitted variant is always stored under the demanded key. -/
theorem emitVariant_key (k : VariantKey) (c : List ImageEntry) :
    (emitVariant k c).key = k := by
  unfold emitVariant
  cases h : lookupVariant k c with
  | none => rfl
  | some e => exact lookupVariant_some_key k c e h

/-- Re-emitting a variant against the output of a run that already emitted it
reproduces that run's entry exactly (staleness check hits the cache). -/
theorem emitVariant_stable (k : VariantKey) (keys : List VariantKey)
    (c : List ImageEntry) (hk : k ∈ keys) :
    emitVariant k (processImages keys c) = emitVariant k c := by
  have hmem : emitVariant k c ∈ processImages keys c :=
    List.mem_map.mpr ⟨k, hk, rfl⟩
  have huniq : ∀ b ∈ processImages keys c, b.key = k → b = emitVariant k c := by
    intro b hb hbk
    obtain ⟨k2, hk2, hbe⟩ := List.mem_map.mp hb
    have hkk : k2 = k := by rw [← emitVariant_key k2 c, hbe, hbk]
    rw [← hbe, hkk]
  have hl := lookupVariant_eq_some k (processImages keys c) (emitVariant k c)
    hmem (emitVariant_key k c) huniq
  have hdef : emitVariant k (processImages keys c) =
      match lookupVariant k (processImages keys c) with
      | some e => e
      | none => computeVariant k := rfl
  rw [hdef, hl]

/-- Running the image pipeline against its own previous output changes
nothing: all work is skipped via the cache. -/
theorem processImages_stable (keys : List VariantKey) (c : List ImageEntry) :
    processImages keys (processImages keys c) = processImages keys c :=
  List.map_congr_left fun k hk => emitVariant_stable k keys c hk

/-- The produced entries are keyed exactly by the demanded keys, in order. -/
theorem processImages_keys (keys : List VariantKey) (c : List ImageEntry) :
    (processImages keys c).map ImageEntry.key = keys := by
  unfold processImages
  rw [List.map_map]
  have h1 : keys.map (ImageEntry.key ∘ fun k => emitVariant k c) = keys.map id :=
    List.map_congr_left fun k _ => emitVariant_key k c
  rw [h1, List.map_id]

/-- A component reference appearing in a body is collected. -/
theorem componentRefsOf_mem (body : List BodyItem) (n : String)
    (h : BodyItem.componentRef n ∈ body) : n ∈ componentRefsOf body := by
  induction body with
  | nil => cases h
  | cons it its ih =>
    rcases List.mem_cons.mp h with heq | hmem
    · rw [← heq]
      simp [componentRefsOf]
    · cases it with
      | para s => simpa [componentRefsOf] using ih hmem
      | componentRef m => simp [componentRefsOf]; right; exact ih hmem
      | codeBlock a b c => simpa [componentRefsOf] using ih hmem
      | imageRef q => simpa [componentRefsOf] using ih hmem

/-- An image reference appearing in a body is collected. -/
theorem imageRefs_mem (body : List BodyItem) (pth : String)
    (h : BodyItem.imageRef pth ∈ body) : pth ∈ imageRefs body := by
  induction body with
  | nil => cases h
  | cons it its ih =>
    rcases List.mem_cons.mp h with heq | hmem
    · rw [← heq]
      simp [imageRefs]
    · cases it with
      | para s => simpa [imageRefs] using ih hmem
      | componentRef m => simpa [imageRefs] using ih hmem
      | codeBlock a b c => simpa [imageRefs] using ih hmem
      | imageRef q => simp [imageRefs]; right; exact ih hmem

/-- An image reference of any post is collected across the post list. -/
theorem referencedImages_mem (posts : List Post) (p : Post) (pth : String)
    (hp : p ∈ posts) (h : pth ∈ imageRefs p.body) : pth ∈ referencedImages posts := by
  induction posts with
  | nil => cases hp
  | cons q qs ih =>
    rcases List.mem_cons.mp hp with rfl | hmem
    · exact List.mem_append.mpr (Or.inl h)
    · exact List.mem_append.mpr (Or.inr (ih hmem))

/-- A referenced corrupt source contributes an asset-processing warning. -/
theorem imageWarningsOfRefs_mem (sources : List ImageSource) (refs : List String)
    (pth : String) (s : ImageSource) (hpath : pth ∈ refs)
    (hfind : findSource pth sources = some s) (hnone : s.content = none) :
    Warning.assetProcessing pth ∈ imageWarningsOfRefs sources refs := by
  induction refs with
  | nil => cases hpath
  | cons q rest ih =>
    rcases List.mem_cons.mp hpath with rfl | hmem
    · simp only [imageWarningsOfRefs, hfind, hnone]
      exact List.mem_append.mpr (Or.inl (List.mem_cons_self _ _))
    · exact List.mem_append.mpr (Or.inr (ih hmem))

end DlibinBuild

namespace DlibinBuild

/-- Tag arrays survive the JSON round trip. -/
theorem parseStrList_map (tags : List String) :
    parseStrList (tags.map Json.str) = some tags := by
  induction tags with
  | nil => rfl
  | cons t ts ih => simp [parseStrList, ih]

/-- One summary object survives the JSON round trip. -/
theorem parseSummary_toJson (s : PostSummary) :
    parseSummary (summaryToJson s) = some s := by
  simp [summaryToJson, parseSummary, parseStrList_map]

/-- A sequence of summary objects survives the JSON round trip. -/
theorem parseSummaries_map (l : List PostSummary) :
    parseSummaries (l.map summaryToJson) = some l := by
  induction l with
  | nil => rfl
  | cons s ss ih => simp [parseSummaries, parseSummary_toJson, ih]

end DlibinBuild

namespace DlibinBuild

/-- C1: the assembled PostIndex lists the post summaries sorted by publish
date in descending order, and the three content files dated 2021-01-01,
2021-02-01 and 2020-12-01 produce an index ordered
[2021-02-01, 2021-01-01, 2020-12-01]. -/
theorem spec_C1_index_sorted_desc :
    (∀ posts : List Post, List.Sorted byDateDesc (assembleIndex posts)) ∧
      (runBuild exampleThree emptyOutput).map
          (fun r => r.output.index.map PostSummary.date)
        = .ok ["2021-02-01", "2021-01-01", "2020-12-01"] := by
  constructor
  · intro posts
    exact List.sorted_insertionSort byDateDesc (posts.map summaryOf)
  · rfl

/-- C6: parsing the serialized aggregate metadata artifact yields exactly the
ordered sequence of post summaries that produced it. -/
theorem spec_C6_roundtrip (l : List PostSummary) :
    parseIndex (serializeIndex l) = some l := by
  simp [serializeIndex, parseIndex, parseSummaries_map]

/-- C7: every successfully extracted content file yields a post with a
non-empty slug, a non-empty title, a parsable date, a reading time of at
least one, and the untouched body. -/
theorem spec_C7_extractor_guarantees (f : ContentFile) (p : Post)
    (h : extractMetadata f = .ok p) :
    p.slug ≠ "" ∧ p.title ≠ "" ∧ (parseDate p.date).isSome = true ∧
      1 ≤ p.readingTime ∧ p.body = f.body := by
  obtain ⟨t, d, x, ht, hte, hd, hx, hp⟩ := extractMetadata_ok_inv f p h
  subst hp
  refine ⟨?_, ?_, ?_, ?_, rfl⟩
  · show slugOf f ≠ ""
    unfold slugOf
    by_cases hs : stemOf f.filename = ""
    · simp only [hs, if_pos rfl, ht, Option.getD_some]
      exact hte
    · simp only [if_neg hs]
      exact hs
  · show f.fm.title.getD "" ≠ ""
    rw [ht, Option.getD_some]
    exact hte
  · show (parseDate (f.fm.date.getD "")).isSome = true
    rw [hd, Option.getD_some, hx]
    rfl
  · exact le_max_left 1 _

/-- Witness for C7 at a concrete content file. -/
theorem spec_C7_witness :
    (postOf (fileDated "post.mdx" "Post" "2021-05-06")).slug ≠ "" ∧
      (postOf (fileDated "post.mdx" "Post" "2021-05-06")).title ≠ "" ∧
      (parseDate (postOf (fileDated "post.mdx" "Post" "2021-05-06")).date).isSome = true ∧
      1 ≤ (postOf (fileDated "post.mdx" "Post" "2021-05-06")).readingTime ∧
      (postOf (fileDated "post.mdx" "Post" "2021-05-06")).body
        = (fileDated "post.mdx" "Post" "2021-05-06").body :=
  spec_C7_extractor_guarantees (fileDated "post.mdx" "Post" "2021-05-06")
    (postOf (fileDated "post.mdx" "Post" "2021-05-06")) (by rfl)

/-- C9: the Page Compiler is deterministic — two compilations of the same
post body against the same registry produce identical page artifacts. -/
theorem spec_C9_compiler_deterministic (registry : List String)
    (avail : List VariantKey) (p : Post) (a b : Page)
    (h1 : compilePage registry avail p = .ok a)
    (h2 : compilePage registry avail p = .ok b) : a = b := by
  rw [h1] at h2
  injection h2

/-- Witness for C9 at a concrete post and registry. -/
theorem spec_C9_witness :
    compilePage ["StockSim"] [] (postOf componentFile) = .ok (pageOf [] (postOf componentFile)) ∧
      pageOf [] (postOf componentFile) = pageOf [] (postOf componentFile) :=
  ⟨by rfl, spec_C9_compiler_deterministic ["StockSim"] [] (postOf componentFile)
    (pageOf [] (postOf componentFile)) (pageOf [] (postOf componentFile)) (by rfl) (by rfl)⟩

end DlibinBuild

namespace DlibinBuild

/-- C3: a content file lacking the required title (or with an absent or
unparsable date) makes the whole run fail with a content-format error, and no
output artifact is produced. -/
theorem spec_C3_malformed_frontmatter_aborts (i : BuildInputs) (prev : OutputDir)
    (f : ContentFile) (hf : f ∈ i.files)
    (hbad : f.fm.title = none ∨ f.fm.date = none ∨
      ∃ d, f.fm.date = some d ∧ parseDate d = none) :
    (∃ m, runBuild i prev = .error (.contentFormat m)) ∧
      ∀ r, runBuild i prev ≠ .ok r := by
  have hreq : hasRequiredFrontmatter f = false := by
    unfold hasRequiredFrontmatter
    rcases hbad with h | h | ⟨d, hd, hpd⟩
    · simp [h]
    · cases ht : f.fm.title with
      | none => rfl
      | some t =>
        by_cases hte : t = ""
        · simp [hte]
        · simp [hte, h]
    · cases ht : f.fm.title with
      | none => rfl
      | some t =>
        by_cases hte : t = ""
        · simp [hte]
        · simp [hte, hd, hpd]
  obtain ⟨m, hm⟩ := extractAll_err_of i.files f hf hreq
  constructor
  · exact ⟨m, by simp only [runBuild, hm]⟩
  · intro r hr
    simp only [runBuild, hm] at hr
    exact Except.noConfusion hr

/-- Witness for C3 on inputs containing a file with no title. -/
theorem spec_C3_witness :
    (∃ m, runBuild exampleMissingTitle emptyOutput = .error (.contentFormat m)) ∧
      ∀ r, runBuild exampleMissingTitle emptyOutput ≠ .ok r :=
  spec_C3_malformed_frontmatter_aborts exampleMissingTitle emptyOutput brokenFile
    (by decide) (Or.inl rfl)

/-- C4: a post body referencing a component absent from the registry makes
the whole run fail with an unknown-component error, and no page artifact is
emitted. -/
theorem spec_C4_unknown_component_aborts (i : BuildInputs) (prev : OutputDir)
    (hgood : ∀ f ∈ i.files, hasRequiredFrontmatter f = true)
    (f : ContentFile) (hf : f ∈ i.files) (n : String)
    (hn : BodyItem.componentRef n ∈ f.body) (hreg : n ∉ i.registry) :
    (∃ m, runBuild i prev = .error (.unknownComponent m)) ∧
      ∀ r, runBuild i prev ≠ .ok r := by
  have hE := extractAll_ok_of i.files hgood
  have hpf : postOf f ∈ i.files.map postOf := List.mem_map.mpr ⟨f, hf, rfl⟩
  have hn2 : n ∈ componentRefsOf (postOf f).body := componentRefsOf_mem f.body n hn
  obtain ⟨m, hm⟩ := compileAll_err_of i.registry
    (buildAvail i (i.files.map postOf) prev) (i.files.map postOf) (postOf f) hpf
    ⟨n, hn2, hreg⟩
  constructor
  · exact ⟨m, by simp only [runBuild, hE, hm]⟩
  · intro r hr
    simp only [runBuild, hE, hm] at hr
    exact Except.noConfusion hr

/-- Witness for C4 on inputs referencing an unregistered component. -/
theorem spec_C4_witness :
    (∃ m, runBuild exampleUnknownComponent emptyOutput
        = .error (.unknownComponent m)) ∧
      ∀ r, runBuild exampleUnknownComponent emptyOutput ≠ .ok r :=
  spec_C4_unknown_component_aborts exampleUnknownComponent emptyOutput (by decide)
    componentFile (by decide) "StockSim" (by decide) (by decide)

/-- C5: a corrupt image referenced by an otherwise valid post leaves the
build successful, records an asset-processing warning, and the referencing
post's page is still present in the output. -/
theorem spec_C5_corrupt_image_recoverable (i : BuildInputs) (prev : OutputDir)
    (hgood : ∀ f ∈ i.files, hasRequiredFrontmatter f = true)
    (hcomp : ∀ f ∈ i.files, ∀ n ∈ componentRefsOf f.body, n ∈ i.registry)
    (f : ContentFile) (hf : f ∈ i.files) (pth : String)
    (href : BodyItem.imageRef pth ∈ f.body)
    (s : ImageSource) (hfind : findSource pth i.images = some s)
    (hnone : s.content = none) :
    ∃ r, runBuild i prev = .ok r ∧ Warning.assetProcessing pth ∈ r.warnings ∧
      ∃ pg ∈ r.output.pages, pg.slug = slugOf f := by
  have hE := extractAll_ok_of i.files hgood
  have hcomp2 : ∀ p ∈ i.files.map postOf, ∀ n ∈ componentRefsOf p.body, n ∈ i.registry := by
    intro p hp n hn
    obtain ⟨g, hg, rfl⟩ := List.mem_map.mp hp
    exact hcomp g hg n hn
  have hC := compileAll_ok_of i.registry (buildAvail i (i.files.map postOf) prev)
    (i.files.map postOf) hcomp2
  refine ⟨{ output := { indexBytes := jsonRender (serializeIndex (assembleIndex (i.files.map postOf)))
                        index := assembleIndex (i.files.map postOf)
                        pages := (i.files.map postOf).map
                          (pageOf (buildAvail i (i.files.map postOf) prev))
                        images := buildImages i (i.files.map postOf) prev }
            warnings := buildWarnings i (i.files.map postOf)
            summary := { pagesBuilt := ((i.files.map postOf).map
                           (pageOf (buildAvail i (i.files.map postOf) prev))).length
                         warningCount := (buildWarnings i (i.files.map postOf)).length } },
      by simp only [runBuild, hE, hC], ?_, ?_⟩
  · show Warning.assetProcessing pth ∈ buildWarnings i (i.files.map postOf)
    unfold buildWarnings
    exact imageWarningsOfRefs_mem i.images (referencedImages (i.files.map postOf)) pth s
      (referencedImages_mem (i.files.map postOf) (postOf f) pth
        (List.mem_map.mpr ⟨f, hf, rfl⟩) (imageRefs_mem f.body pth href))
      hfind hnone
  · refine ⟨pageOf (buildAvail i (i.files.map postOf) prev) (postOf f), ?_, rfl⟩
    show _ ∈ (i.files.map postOf).map (pageOf (buildAvail i (i.files.map postOf) prev))
    exact List.mem_map.mpr ⟨postOf f, List.mem_map.mpr ⟨f, hf, rfl⟩, rfl⟩

/-- Witness for C5 on inputs with one corrupt referenced image. -/
theorem spec_C5_witness :
    ∃ r, runBuild exampleCorruptImage emptyOutput = .ok r ∧
      Warning.assetProcessing "bad.png" ∈ r.warnings ∧
      ∃ pg ∈ r.output.pages, pg.slug = slugOf corruptImageFile :=
  spec_C5_corrupt_image_recoverable exampleCorruptImage emptyOutput (by decide)
    (by decide) corruptImageFile (by decide) "bad.png" (by decide)
    ⟨"bad.png", none⟩ (by rfl) rfl

end DlibinBuild

namespace DlibinBuild

/-- C8: at the end of every successful run, every post referenced in the
PostIndex has a corresponding compiled page artifact, and every image variant
referenced by a compiled page exists among the output images. -/
theorem spec_C8_output_invariant (i : BuildInputs) (prev : OutputDir)
    (r : BuildResult) (h : runBuild i prev = .ok r) :
    (∀ s ∈ r.output.index, ∃ pg ∈ r.output.pages, pg.slug = s.slug) ∧
      (∀ pg ∈ r.output.pages, ∀ k ∈ pg.deps, ∃ e ∈ r.output.images, e.key = k) := by
  unfold runBuild at h
  cases hE : extractAll i.files with
  | error e =>
    simp only [hE] at h
    exact Except.noConfusion h
  | ok posts =>
    simp only [hE] at h
    cases hC : compileAll i.registry (buildAvail i posts prev) posts with
    | error e =>
      simp only [hC] at h
      exact Except.noConfusion h
    | ok pages =>
      simp only [hC] at h
      injection h with h
      have hpages : pages = posts.map (pageOf (buildAvail i posts prev)) :=
        compileAll_ok_inv _ _ _ _ hC
      constructor
      · intro s hs
        have hs2 : s ∈ assembleIndex posts := by rw [← h] at hs; exact hs
        have hs3 : s ∈ posts.map summaryOf := by
          simpa [assembleIndex, List.mem_insertionSort] using hs2
        obtain ⟨p, hp, hps⟩ := List.mem_map.mp hs3
        refine ⟨pageOf (buildAvail i posts prev) p, ?_, ?_⟩
        · rw [← h]
          show _ ∈ pages
          rw [hpages]
          exact List.mem_map.mpr ⟨p, hp, rfl⟩
        · rw [← hps]
          rfl
      · intro pg hpg k hk
        have hpg2 : pg ∈ pages := by rw [← h] at hpg; exact hpg
        rw [hpages] at hpg2
        obtain ⟨p, hp, hpe⟩ := List.mem_map.mp hpg2
        have hk2 : k ∈ buildAvail i posts prev := by
          rw [← hpe] at hk
          exact (List.mem_filter.mp hk).1
        obtain ⟨e, he, hek⟩ := List.mem_map.mp hk2
        refine ⟨e, ?_, hek⟩
        rw [← h]
        exact he

/-- Witness for C8 on inputs exercising all pipeline stages. -/
theorem spec_C8_witness :
    (∀ s ∈ (resultOf exampleFull emptyOutput).output.index,
        ∃ pg ∈ (resultOf exampleFull emptyOutput).output.pages, pg.slug = s.slug) ∧
      (∀ pg ∈ (resultOf exampleFull emptyOutput).output.pages, ∀ k ∈ pg.deps,
        ∃ e ∈ (resultOf exampleFull emptyOutput).output.images, e.key = k) :=
  spec_C8_output_invariant exampleFull emptyOutput (resultOf exampleFull emptyOutput)
    (by rfl)

/-- Re-running the orchestrator against its own output reproduces the result
exactly: the image staleness check hits the cache and everything else is a
pure function of the inputs. -/
theorem runBuild_rerun_eq (i : BuildInputs) (prev : OutputDir) (r : BuildResult)
    (h : runBuild i prev = .ok r) : runBuild i r.output = .ok r := by
  unfold runBuild at h ⊢
  cases hE : extractAll i.files with
  | error e =>
    simp only [hE] at h
    exact Except.noConfusion h
  | ok posts =>
    simp only [hE] at h ⊢
    cases hC : compileAll i.registry (buildAvail i posts prev) posts with
    | error e =>
      simp only [hC] at h
      exact Except.noConfusion h
    | ok pages =>
      simp only [hC] at h
      injection h with h
      have hOutImages : r.output.images = processImages (buildKeys i posts) prev.images := by
        rw [← h]
        rfl
      have hAvail : buildAvail i posts r.output = buildAvail i posts prev := by
        unfold buildAvail buildImages
        rw [hOutImages, processImages_stable]
      have hImages : buildImages i posts r.output = buildImages i posts prev := by
        unfold buildImages
        rw [hOutImages, processImages_stable]
      rw [hAvail]
      simp only [hC]
      rw [hImages, h]

/-- C2: with unchanged inputs the second run is a no-op — it succeeds with
the identical result, so the aggregate metadata artifact is byte-identical
and the set of output page paths is identical. -/
theorem spec_C2_idempotent (i : BuildInputs) (prev : OutputDir) (r : BuildResult)
    (h : runBuild i prev = .ok r) :
    runBuild i r.output = .ok r ∧
      ∀ r2, runBuild i r.output = .ok r2 →
        r2.output.indexBytes = r.output.indexBytes ∧
        r2.output.pages.map Page.path = r.output.pages.map Page.path := by
  have main := runBuild_rerun_eq i prev r h
  refine ⟨main, fun r2 h2 => ?_⟩
  rw [main] at h2
  injection h2 with h2
  rw [← h2]
  exact ⟨rfl, rfl⟩

/-- Witness for C2 on the cache-exercising inputs. -/
theorem spec_C2_witness :
    runBuild exampleCacheRun (resultOf exampleCacheRun emptyOutput).output
        = .ok (resultOf exampleCacheRun emptyOutput) ∧
      ∀ r2, runBuild exampleCacheRun (resultOf exampleCacheRun emptyOutput).output
          = .ok r2 →
        r2.output.indexBytes = (resultOf exampleCacheRun emptyOutput).output.indexBytes ∧
        r2.output.pages.map Page.path
          = (resultOf exampleCacheRun emptyOutput).output.pages.map Page.path :=
  spec_C2_idempotent exampleCacheRun emptyOutput (resultOf exampleCacheRun emptyOutput)
    (by rfl)

end DlibinBuild

namespace CodeBlockUI

/-- The highlighted-code class can never collide with the title header
class, whatever the language. -/
theorem hljs_class_ne_title (s : String) :
    ("hljs language-" ++ s) ≠ "remark-code-title" := by
  intro h
  have h2 := congrArg String.data h
  rw [String.data_append] at h2
  have h4 : some 'h' = some 'r' := by
    calc some 'h' = List.head? ("hljs language-".data ++ s.data) := by rfl
      _ = List.head? "remark-code-title".data := by rw [h2]
      _ = some 'r' := by rfl
  simp at h4

/-- C10: the rendered CodeBlock contains the remark-code-title header iff the
title prop is present and truthy; the code element carries class
`hljs language-<language>` with the tokenized HTML injected verbatim; and
with no title only the copy button and the code block wrapper are rendered. -/
theorem spec_C10_codeblock_render (props : CodeBlockProps) (copied : Bool) :
    (hasClassNode "remark-code-title" (renderCodeBlock props copied)
        = titleTruthy props.title) ∧
      findCode (renderCodeBlock props copied)
        = some ([("class", "hljs language-" ++ props.language)],
            [Node.raw props.syntaxTokenizedHTMLString]) ∧
      (props.title = none →
        renderCodeBlock props copied
          = Node.elem "div" [("class", "lg:-mx-16")] [contentDiv props copied]) := by
  refine ⟨?_, ?_, ?_⟩
  · cases ht : props.title with
    | none =>
      cases copied <;>
        simp [renderCodeBlock, titleHeader, ht, titleTruthy, hasClassNode, hasClassNodes,
          contentDiv, copyButton, codePre, attrHas, iconClass,
          hljs_class_ne_title props.language]
    | some t =>
      by_cases hte : t = ""
      · cases copied <;>
          simp [renderCodeBlock, titleHeader, ht, hte, titleTruthy, hasClassNode,
            hasClassNodes, contentDiv, copyButton, codePre, attrHas, iconClass,
            hljs_class_ne_title props.language]
      · cases copied <;>
          simp [renderCodeBlock, titleHeader, ht, hte, titleTruthy, hasClassNode,
            hasClassNodes, contentDiv, copyButton, codePre, attrHas, iconClass,
            hljs_class_ne_title props.language]
  · cases ht : props.title with
    | none =>
      cases copied <;>
        simp [renderCodeBlock, titleHeader, ht, contentDiv, copyButton, codePre,
          findCode, findCodeList, iconClass]
    | some t =>
      by_cases hte : t = ""
      · cases copied <;>
          simp [renderCodeBlock, titleHeader, ht, hte, contentDiv, copyButton, codePre,
            findCode, findCodeList, iconClass]
      · cases copied <;>
          simp [renderCodeBlock, titleHeader, ht, hte, contentDiv, copyButton, codePre,
            findCode, findCodeList, iconClass]
  · intro hnone
    simp [renderCodeBlock, titleHeader, hnone]

/-- Witness for C10 at concrete props with no title. -/
theorem spec_C10_witness :
    hasClassNode "remark-code-title"
        (renderCodeBlock ⟨"javascript", "<span>let</span>", none⟩ false) = false ∧
      findCode (renderCodeBlock ⟨"javascript", "<span>let</span>", none⟩ false)
        = some ([("class", "hljs language-javascript")], [Node.raw "<span>let</span>"]) ∧
      renderCodeBlock ⟨"javascript", "<span>let</span>", none⟩ false
        = Node.elem "div" [("class", "lg:-mx-16")]
            [contentDiv ⟨"javascript", "<span>let</span>", none⟩ false] :=
  ⟨(spec_C10_codeblock_render ⟨"javascript", "<span>let</span>", none⟩ false).1,
    (spec_C10_codeblock_render ⟨"javascript", "<span>let</span>", none⟩ false).2.1,
    (spec_C10_codeblock_render ⟨"javascript", "<span>let</span>", none⟩ false).2.2 rfl⟩

end CodeBlockUI
